import Mathlib

/-!
Verification development for the echogarden synthesis orchestration core.

The definitions below are a shallow embedding of the TypeScript sources:

* `src/api/Synthesis.ts` — the synthesis pipeline, voice-list request logic,
  engine selection and the SSML parameter conversions;
* the WebSocket transport client (`Client` class);
* the ASCII codec (`encodeAscii` / `decodeAscii`).

Modelling conventions:

* JavaScript numbers that carry times, durations, speeds and pitches are
  modelled as `ℚ` (exact arithmetic; the source computes with IEEE doubles,
  and the claims under study are about the exact formulas).
* Audio sample buffers are lists of rationals; a `RawAudio` is a single
  channel plus a sample rate, matching the pipeline's mono working
  representation (`audioChannels[0]`).
* External collaborators (synthesis backends, the sentence splitter, the
  DSP kernels, the forced aligner, the audio trimmers, msgpack) are taken
  as function parameters: the pipeline logic owned by the source file is
  what is defined here.
* `undefined` / optional values become `Option`; JavaScript truthiness
  tests on strings treat `""` like `undefined` and are modelled that way.
-/

namespace Echogarden

/-- A synthesis voice, from `SynthesisVoice` in Synthesis.ts:
name, declared language codes, gender (a string: male / female / unknown). -/
structure SynthesisVoice where
  name : String
  languages : List String
  gender : String
deriving DecidableEq, Repr

/-- A timeline entry, from `TimelineEntry`: entry kind (segment / sentence /
word), text, start and end times, and a nested child timeline. -/
inductive TimelineEntry : Type where
  | mk (type : String) (text : String) (startTime : ℚ) (endTime : ℚ)
      (timeline : List TimelineEntry)

/-- The entry kind string. -/
def TimelineEntry.type : TimelineEntry → String
  | .mk ty _ _ _ _ => ty

/-- The entry text. -/
def TimelineEntry.text : TimelineEntry → String
  | .mk _ tx _ _ _ => tx

/-- The entry start time. -/
def TimelineEntry.startTime : TimelineEntry → ℚ
  | .mk _ _ s _ _ => s

/-- The entry end time. -/
def TimelineEntry.endTime : TimelineEntry → ℚ
  | .mk _ _ _ e _ => e

/-- The nested child timeline of an entry. -/
def TimelineEntry.timeline : TimelineEntry → List TimelineEntry
  | .mk _ _ _ _ tl => tl

mutual

/-- Modelled from the spec: `addTimeOffsetToTimeline` lives in
`utilities/Timeline.ts`, which is not part of the sources under study.
Per the spec, shifting a timeline by an offset adds that offset to every
timestamp of every entry, recursively (entry version). -/
def addTimeOffsetToTimelineEntry (entry : TimelineEntry) (offset : ℚ) : TimelineEntry :=
  match entry with
  | .mk ty tx s e tl => .mk ty tx (s + offset) (e + offset) (addTimeOffsetToTimeline tl offset)

/-- Modelled from the spec: `addTimeOffsetToTimeline` from
`utilities/Timeline.ts` adds the offset to every timestamp, recursively. -/
def addTimeOffsetToTimeline (timeline : List TimelineEntry) (offset : ℚ) : List TimelineEntry :=
  match timeline with
  | [] => []
  | e :: rest => addTimeOffsetToTimelineEntry e offset :: addTimeOffsetToTimeline rest offset

end

mutual

/-- Modelled from the spec: `multiplyTimelineByFactor` from
`utilities/Timeline.ts` rescales every timestamp by the factor,
recursively (entry version). -/
def multiplyTimelineEntryByFactor (entry : TimelineEntry) (factor : ℚ) : TimelineEntry :=
  match entry with
  | .mk ty tx s e tl => .mk ty tx (s * factor) (e * factor) (multiplyTimelineByFactor tl factor)

/-- Modelled from the spec: `multiplyTimelineByFactor` from
`utilities/Timeline.ts` rescales every timestamp by the factor, recursively. -/
def multiplyTimelineByFactor (timeline : List TimelineEntry) (factor : ℚ) : List TimelineEntry :=
  match timeline with
  | [] => []
  | e :: rest => multiplyTimelineEntryByFactor e factor :: multiplyTimelineByFactor rest factor

end

mutual

/-- All timestamps occurring in an entry (start, end, and recursively those
of its children), used to state timeline rescaling laws. -/
def entryTimes : TimelineEntry → List ℚ
  | .mk _ _ s e tl => s :: e :: timelineTimes tl

/-- All timestamps occurring in a timeline. -/
def timelineTimes : List TimelineEntry → List ℚ
  | [] => []
  | e :: rest => entryTimes e ++ timelineTimes rest

end

mutual

theorem entryTimes_addOffset (e : TimelineEntry) (off : ℚ) :
    entryTimes (addTimeOffsetToTimelineEntry e off) = (entryTimes e).map (fun t => t + off) := by
  match e with
  | .mk ty tx s en tl =>
    simp only [addTimeOffsetToTimelineEntry, entryTimes, List.map_cons,
      timelineTimes_addOffset tl off]

theorem timelineTimes_addOffset (tl : List TimelineEntry) (off : ℚ) :
    timelineTimes (addTimeOffsetToTimeline tl off) = (timelineTimes tl).map (fun t => t + off) := by
  match tl with
  | [] => rfl
  | e :: rest =>
    simp only [addTimeOffsetToTimeline, timelineTimes, List.map_append,
      entryTimes_addOffset e off, timelineTimes_addOffset rest off]

end

mutual

theorem entryTimes_multiply (e : TimelineEntry) (f : ℚ) :
    entryTimes (multiplyTimelineEntryByFactor e f) = (entryTimes e).map (fun t => t * f) := by
  match e with
  | .mk ty tx s en tl =>
    simp only [multiplyTimelineEntryByFactor, entryTimes, List.map_cons,
      timelineTimes_multiply tl f]

theorem timelineTimes_multiply (tl : List TimelineEntry) (f : ℚ) :
    timelineTimes (multiplyTimelineByFactor tl f) = (timelineTimes tl).map (fun t => t * f) := by
  match tl with
  | [] => rfl
  | e :: rest =>
    simp only [multiplyTimelineByFactor, timelineTimes, List.map_append,
      entryTimes_multiply e f, timelineTimes_multiply rest f]

end

/-- Top-level texts of a timeline. `addTimeOffsetToTimeline` keeps them. -/
theorem mem_addOffset_text (tl : List TimelineEntry) (off : ℚ) (e : TimelineEntry)
    (h : e ∈ addTimeOffsetToTimeline tl off) : ∃ e0 ∈ tl, e.text = e0.text := by
  induction tl with
  | nil => simp [addTimeOffsetToTimeline] at h
  | cons x rest ih =>
    rw [addTimeOffsetToTimeline] at h
    rcases List.mem_cons.mp h with h1 | h2
    · refine ⟨x, List.mem_cons_self x rest, ?_⟩
      subst h1
      cases x with
      | mk ty tx s en ctl => rfl
    · obtain ⟨e0, he0, hx⟩ := ih h2
      exact ⟨e0, List.mem_cons_of_mem _ he0, hx⟩

/-!
### Voice-list request logic (Synthesis.ts, `requestVoiceList`, lines 1387-1441)

The cache handling and the per-engine voice-list loading are external
collaborators; the logic embedded here is what `requestVoiceList` does with
the loaded `voiceList` and the request options: language filtering with the
short-code fallback, gender filtering, name-pattern filtering, and the
best-matching-voice tie-break.
-/

/-- Modelled from the spec: `getShortLanguageCode` from `utilities/Locale.ts`
is not in the sources under study; per the spec, the shortened code is the
requested code with its region suffix removed (the part before the dash). -/
def getShortLanguageCode (code : String) : String :=
  (code.splitOn "-").headD code

/-- Modelled from the spec: the `shortLanguageCodeToLong` table from
`utilities/Locale.ts` is not in the sources under study. The spec names one
canonical long form: `"en"` ↦ `"en-US"`. -/
def shortLanguageCodeToLong : List (String × String) := [("en", "en-US")]

/-- Truthiness lookup `shortLanguageCodeToLong[languageCode]`. -/
def lookupLongForm (code : String) : Option String :=
  (shortLanguageCodeToLong.find? (fun p => p.1 == code)).map (fun p => p.2)

/-- Language filter of `requestVoiceList` (lines 1389-1398): keep the voices
whose `languages` contain the requested code; if none do and the requested
code has a region suffix, refilter by the shortened code. -/
def filterVoicesByLanguage (voiceList : List SynthesisVoice) (languageCode : String) :
    List SynthesisVoice :=
  let filteredVoiceList := voiceList.filter (fun voice => decide (languageCode ∈ voice.languages))
  if filteredVoiceList.isEmpty && languageCode.toList.contains '-' then
    voiceList.filter (fun voice => decide (getShortLanguageCode languageCode ∈ voice.languages))
  else
    filteredVoiceList

/-- Gender filter of `requestVoiceList` (lines 1401-1404): a voice passes when
its gender equals the requested one (lowercased) or is `"unknown"`. -/
def filterVoicesByGender (voiceList : List SynthesisVoice) (voiceGender : String) :
    List SynthesisVoice :=
  voiceList.filter (fun voice =>
    voice.gender == voiceGender.toLower || voice.gender == "unknown")

/-- JavaScript `\w` word characters, used to model the `\b` boundary split of
the voice-name pattern filter. -/
def isJsWordChar (c : Char) : Bool :=
  (('a' ≤ c) && (c ≤ 'z')) || (('A' ≤ c) && (c ≤ 'Z')) || (('0' ≤ c) && (c ≤ '9')) || c == '_'

/-- Grouping of consecutive characters of the same word-char class; models
`split(/\b/g)`, which breaks a string exactly at word/non-word transitions. -/
def chunkByWordCharClass : List Char → List (List Char)
  | [] => []
  | c :: rest =>
    match chunkByWordCharClass rest with
    | [] => [[c]]
    | [] :: groups => [c] :: [] :: groups
    | (d :: ds) :: groups =>
      if isJsWordChar c == isJsWordChar d then (c :: d :: ds) :: groups
      else [c] :: (d :: ds) :: groups

/-- The name-pattern parts `namePatternLowerCase.split(/\b/g)`. -/
def splitOnWordBoundaries (s : String) : List String :=
  (chunkByWordCharClass s.toList).map (fun l => String.mk l)

/-- Name-pattern filter of `requestVoiceList` (lines 1406-1426): a pattern
containing a word boundary is matched as a substring of the voice name;
a single-part pattern must be a prefix of some word-boundary part of the
voice name. Lowercasing models `toLocaleLowerCase`. -/
def filterVoicesByNamePattern (voiceList : List SynthesisVoice) (pattern : String) :
    List SynthesisVoice :=
  let namePatternLowerCase := pattern.toLower
  let namePatternParts := splitOnWordBoundaries namePatternLowerCase
  if namePatternParts.length > 1 then
    voiceList.filter (fun voice =>
      decide (namePatternLowerCase.toList <:+: voice.name.toLower.toList))
  else
    voiceList.filter (fun voice =>
      (splitOnWordBoundaries voice.name.toLower).any
        (fun namePart => namePatternLowerCase.isPrefixOf namePart))

/-- Best-matching-voice tie-break of `requestVoiceList` (lines 1428-1439):
the first voice of the filtered list, unless the list has more than one
entry and the requested code has a known long form declared by some voice,
in which case the first such voice. -/
def bestMatchingVoiceOf (languageCode : String) (voiceList : List SynthesisVoice) :
    Option SynthesisVoice :=
  match voiceList with
  | [] => none
  | first :: rest =>
    if (first :: rest).length > 1 then
      match lookupLongForm languageCode with
      | some expandedLanguageCode =>
        match (first :: rest).find?
            (fun voice => decide (expandedLanguageCode ∈ voice.languages)) with
        | some voice => some voice
        | none => some first
      | none => some first
    else some first

/-- The request options consulted by the voice-list filtering logic. -/
structure VoiceListRequestOptionsM where
  language : Option String := none
  voiceGender : Option String := none
  voice : Option String := none

/-- The pure core of `requestVoiceList` (lines 1387-1441), applied to the
voice list after cache handling. `options.language` is taken already
normalized (`normalizeLanguageCode` is an external collaborator); a JS-falsy
(absent or empty) language, gender or name pattern disables its filter.
Returns the filtered list and the best-matching voice. -/
def requestVoiceListLogic (options : VoiceListRequestOptionsM)
    (voiceList : List SynthesisVoice) : List SynthesisVoice × Option SynthesisVoice :=
  let languageCode := options.language.getD ""
  let l1 := if languageCode = "" then voiceList else filterVoicesByLanguage voiceList languageCode
  let l2 :=
    match options.voiceGender with
    | none => l1
    | some g => if g = "" then l1 else filterVoicesByGender l1 g
  let l3 :=
    match options.voice with
    | none => l2
    | some p => if p = "" then l2 else filterVoicesByNamePattern l2 p
  (l3, bestMatchingVoiceOf languageCode l3)

/-- When more than one voice remains and some remaining voice declares the
known long form of the requested code, the tie-break picks the first such
voice. -/
theorem bestMatchingVoiceOf_eq_find (languageCode longForm : String)
    (l : List SynthesisVoice)
    (hlong : lookupLongForm languageCode = some longForm)
    (hmulti : 1 < l.length)
    (hexists : ∃ v ∈ l, longForm ∈ v.languages) :
    bestMatchingVoiceOf languageCode l
      = l.find? (fun v => decide (longForm ∈ v.languages)) := by
  match l with
  | [] => simp at hmulti
  | first :: rest =>
    rw [bestMatchingVoiceOf, if_pos hmulti, hlong]
    have hsome : ((first :: rest).find? (fun v => decide (longForm ∈ v.languages))).isSome := by
      rw [List.find?_isSome]
      obtain ⟨v, hv, hl⟩ := hexists
      exact ⟨v, hv, by simpa using hl⟩
    obtain ⟨v, hv⟩ := Option.isSome_iff_exists.mp hsome
    simp [hv]

/-- The selected voice is the tie-break applied to the filtered list. -/
theorem requestVoiceListLogic_snd (options : VoiceListRequestOptionsM)
    (voiceList : List SynthesisVoice) :
    (requestVoiceListLogic options voiceList).2
      = bestMatchingVoiceOf (options.language.getD "")
          (requestVoiceListLogic options voiceList).1 := rfl

/-- C1 (amended): for a voice-list request whose requested language is a
short code with a known canonical long form, when more than one voice
remains after filtering and some remaining voice declares that long form,
`requestVoiceList` selects the first remaining voice (in list order) whose
languages include the long form. (The original claim's concrete example is
refuted by `requestVoiceList_short_code_example_fails`: candidates must
also declare the short code itself to survive the language filter.) -/
theorem requestVoiceList_tieBreak_prefers_long_form
    (options : VoiceListRequestOptionsM) (voiceList : List SynthesisVoice)
    (lang longForm : String)
    (hlang : options.language = some lang)
    (_hshort : lang.toList.contains '-' = false)
    (hlong : lookupLongForm lang = some longForm)
    (hmulti : 1 < ((requestVoiceListLogic options voiceList).1).length)
    (hexists : ∃ v ∈ (requestVoiceListLogic options voiceList).1, longForm ∈ v.languages) :
    (requestVoiceListLogic options voiceList).2
      = ((requestVoiceListLogic options voiceList).1).find?
          (fun v => decide (longForm ∈ v.languages)) := by
  rw [requestVoiceListLogic_snd, hlang]
  exact bestMatchingVoiceOf_eq_find lang longForm _ hlong hmulti hexists

/-- Witness for C1: with candidates that declare the short code `"en"`
(surviving the filter), the first voice also declaring the long form
`"en-US"` — the later-listed `"b"` — is selected over the earlier `"a"`. -/
theorem requestVoiceList_tieBreak_witness :
    (requestVoiceListLogic { language := some "en" }
      [⟨"a", ["en-GB", "en"], "unknown"⟩, ⟨"b", ["en-US", "en"], "unknown"⟩]).2
      = some ⟨"b", ["en-US", "en"], "unknown"⟩ := by
  have h := requestVoiceList_tieBreak_prefers_long_form
    { language := some "en" }
    [⟨"a", ["en-GB", "en"], "unknown"⟩, ⟨"b", ["en-US", "en"], "unknown"⟩]
    "en" "en-US" rfl (by decide) (by decide) (by decide) (by decide)
  rw [h]
  decide

/-- Counterexample to C1 as stated: request language `"en"` with no voice
declaring exactly `"en"` but candidate `"b"` declaring the long form
`"en-US"`. The language filter keeps only voices whose languages contain
`"en"`; none do, the short code has no region suffix so there is no
refilter, the filtered list is empty, and no voice is selected — the
long-form voice `"b"` is not preferred. -/
theorem requestVoiceList_short_code_example_fails :
    (requestVoiceListLogic { language := some "en" }
      [⟨"a", ["en-GB"], "unknown"⟩, ⟨"b", ["en-US"], "unknown"⟩]).2 = none := by
  decide

/-- C2: with a language specified, `requestVoiceList` filters by exact
membership of the normalized code in each voice's languages list; when that
yields nothing and the code has a region suffix, it refilters by the
shortened code; when that yields nothing and the code has no region suffix,
the filtered list is empty. For voices `a` (en-US, en) and `b` (en-GB, en)
and request language `"en-GB"`, the selected voice is `"b"`. -/
theorem requestVoiceList_filter_fallback_spec
    (voiceList : List SynthesisVoice) (lang : String) :
    ((∃ v ∈ voiceList, lang ∈ v.languages) →
      filterVoicesByLanguage voiceList lang
        = voiceList.filter (fun v => decide (lang ∈ v.languages))) ∧
    ((¬ ∃ v ∈ voiceList, lang ∈ v.languages) → lang.toList.contains '-' = true →
      filterVoicesByLanguage voiceList lang
        = voiceList.filter (fun v => decide (getShortLanguageCode lang ∈ v.languages))) ∧
    ((¬ ∃ v ∈ voiceList, lang ∈ v.languages) → lang.toList.contains '-' = false →
      filterVoicesByLanguage voiceList lang = []) ∧
    (requestVoiceListLogic { language := some "en-GB" }
      [⟨"a", ["en-US", "en"], "unknown"⟩, ⟨"b", ["en-GB", "en"], "unknown"⟩]).2
      = some ⟨"b", ["en-GB", "en"], "unknown"⟩ := by
  have hempty : (voiceList.filter (fun v => decide (lang ∈ v.languages))).isEmpty = true
      ↔ ¬ ∃ v ∈ voiceList, lang ∈ v.languages := by
    rw [List.isEmpty_iff, List.filter_eq_nil_iff]
    simp
  refine ⟨?_, ?_, ?_, by decide⟩
  · intro hex
    rw [filterVoicesByLanguage]
    have hfe : (voiceList.filter (fun v => decide (lang ∈ v.languages))).isEmpty = false := by
      cases h : (voiceList.filter (fun v => decide (lang ∈ v.languages))).isEmpty with
      | false => rfl
      | true => exact absurd hex (hempty.mp h)
    simp only [hfe, Bool.false_and, if_neg Bool.false_ne_true]
  · intro hnex hdash
    rw [filterVoicesByLanguage]
    simp only [hempty.mpr hnex, hdash, Bool.and_self, if_true]
  · intro hnex hdash
    rw [filterVoicesByLanguage]
    simp only [hempty.mpr hnex, hdash, Bool.true_and, if_neg Bool.false_ne_true]
    exact List.isEmpty_iff.mp (hempty.mpr hnex)

/-- Witness for C2: a voice declaring the exact requested code passes the
exact-membership filter. -/
theorem requestVoiceList_filter_fallback_witness :
    filterVoicesByLanguage [⟨"a", ["en"], "unknown"⟩] "en"
      = [⟨"a", ["en"], "unknown"⟩] := by
  have h := (requestVoiceList_filter_fallback_spec
    [⟨"a", ["en"], "unknown"⟩] "en").1 (by decide)
  rw [h]
  decide

/-!
### Sentence synthesis postprocessing (Synthesis.ts, `synthesizeSegment`)

`synthesizeSegment` dispatches to one of the engine backends and then
postprocesses: downmix to mono (the model works directly on the mono
channel), optional loudness normalization (disabled at the sentence level
by `synthesizeSegments`), leading-silence trim with timeline shift, forced
alignment fallback when no timeline exists, time/pitch shifting with
timeline rescale, and the final word filter.
-/

/-- An audio buffer: the mono channel `audioChannels[0]` plus sample rate. -/
structure RawAudio where
  samples : List ℚ
  sampleRate : ℚ
deriving DecidableEq

/-- `clip` from `utilities/Utilities.ts` (external): clamp a value to a
range, as used for speed and pitch (`clip(options.speed, 0.1, 10.0)`). -/
def clip (x lo hi : ℚ) : ℚ :=
  if x < lo then lo else if x > hi then hi else x

/-- Modelled from the spec: `isWord` from `nlp/Segmentation.ts` is not in the
sources under study; per the spec the final filter prunes entries whose text
is punctuation-only or whitespace-only, keeping word-class tokens. A text is
word-class when it contains an alphanumeric character. -/
def isWord (text : String) : Bool :=
  text.toList.any (fun c => c.isAlphanum)

/-- What an engine backend returns for one sentence, together with the two
deferred-postprocessing flags the dispatcher sets per engine. -/
structure BackendResult where
  audio : RawAudio
  timeline : Option (List TimelineEntry)
  shouldPostprocessSpeed : Bool
  shouldPostprocessPitch : Bool

/-- The external collaborators invoked by the pipeline. -/
structure Collaborators where
  splitToSentences : String → List String
  backend : String → BackendResult
  trimAudioStart : List ℚ → List ℚ
  trimAudioEnd : List ℚ → ℚ → List ℚ
  align : RawAudio → String → List TimelineEntry
  stretchTimePitch : RawAudio → ℚ → ℚ → RawAudio

/-- The result of the leading-silence trim step. -/
structure TrimStepResult where
  audio : RawAudio
  timeline : Option (List TimelineEntry)

/-- Leading-silence trim of `synthesizeSegment` (lines 753-761): trim the
channel, and if a timeline is attached shift it by
`newDuration - oldDuration` (durations are sample counts over the rate). -/
def applyStartTrimStep (trimStart : List ℚ → List ℚ) (audio : RawAudio)
    (timeline : Option (List TimelineEntry)) : TrimStepResult :=
  let preTrimSampleCount := audio.samples.length
  let trimmedSamples := trimStart audio.samples
  let oldDuration := (preTrimSampleCount : ℚ) / audio.sampleRate
  let newDuration := (trimmedSamples.length : ℚ) / audio.sampleRate
  { audio := { samples := trimmedSamples, sampleRate := audio.sampleRate }
    timeline := timeline.map (fun tl => addTimeOffsetToTimeline tl (newDuration - oldDuration)) }

/-- The duration of the audio removed by the leading-silence trim. -/
def trimmedLeadingDuration (trimStart : List ℚ → List ℚ) (audio : RawAudio) : ℚ :=
  (audio.samples.length : ℚ) / audio.sampleRate
    - ((trimStart audio.samples).length : ℚ) / audio.sampleRate

/-- Time-stretch factor resolution (lines 785-789): the explicit
post-processing speed, or — when the backend deferred speed handling and no
explicit value is set — the requested speed. -/
def computeTimeStretchFactor (explicitFactor : Option ℚ) (shouldPostprocess : Bool)
    (fallback : ℚ) : Option ℚ :=
  match explicitFactor with
  | some f => some f
  | none => if shouldPostprocess then some fallback else none

/-- JavaScript `x || 1.0` on an optional number (lines 800-801): absent and
zero both fall back to one. -/
def jsOrOne (x : Option ℚ) : ℚ :=
  match x with
  | none => 1
  | some v => if v = 0 then 1 else v

/-- Time/pitch shifting step of `synthesizeSegment` (lines 797-821): when
either factor is present and differs from one, run the DSP collaborator,
and when the (defaulted) time factor differs from one rescale every
timeline timestamp by its reciprocal. -/
def applyTimePitchShiftStep (stretch : RawAudio → ℚ → ℚ → RawAudio) (audio : RawAudio)
    (timeline : List TimelineEntry) (timeStretchFactor pitchShiftFactor : Option ℚ) :
    RawAudio × List TimelineEntry :=
  if (timeStretchFactor ≠ none ∧ timeStretchFactor ≠ some 1)
      ∨ (pitchShiftFactor ≠ none ∧ pitchShiftFactor ≠ some 1) then
    (stretch audio (jsOrOne timeStretchFactor) (jsOrOne pitchShiftFactor),
     if jsOrOne timeStretchFactor ≠ 1 then
       multiplyTimelineByFactor timeline (1 / jsOrOne timeStretchFactor)
     else timeline)
  else (audio, timeline)

/-- The per-sentence options consulted by the pipeline model. -/
structure SynthesisOptionsM where
  engine : Option String := none
  language : Option String := none
  voice : Option String := none
  splitToSentences : Bool := true
  ssml : Bool := false
  segmentEndPause : ℚ := 1
  sentenceEndPause : ℚ := 3 / 4
  speed : ℚ := 1
  pitch : ℚ := 1
  postSpeed : Option ℚ := none
  postPitch : Option ℚ := none

/-- The postprocessing tail of `synthesizeSegment` (lines 746-831), with the
engine dispatch abstracted as the `backend` collaborator: leading-silence
trim with timeline shift, alignment fallback when the backend returned no
timeline, time/pitch shift with timeline rescale, and — last — the word
filter on the timeline. (Sentence-level loudness normalization is disabled
by `synthesizeSegments`, so it does not appear.) -/
def synthesizeSegmentPipeline (c : Collaborators) (options : SynthesisOptionsM)
    (text : String) : RawAudio × List TimelineEntry :=
  let backendResult := c.backend text
  let trimmed := applyStartTrimStep c.trimAudioStart backendResult.audio backendResult.timeline
  let timeline1 :=
    match trimmed.timeline with
    | some tl => tl
    | none => c.align trimmed.audio text
  let speed := clip options.speed (1 / 10) 10
  let pitch := clip options.pitch (1 / 10) 10
  let timeStretchFactor :=
    computeTimeStretchFactor options.postSpeed backendResult.shouldPostprocessSpeed speed
  let pitchShiftFactor :=
    computeTimeStretchFactor options.postPitch backendResult.shouldPostprocessPitch pitch
  let shifted := applyTimePitchShiftStep c.stretchTimePitch trimmed.audio timeline1
    timeStretchFactor pitchShiftFactor
  (shifted.1, shifted.2.filter (fun entry => isWord entry.text))

/-!
### The segment/sentence loop (Synthesis.ts, `synthesizeSegments`, lines 28-224)

The loop is modelled as explicit recursion over segments and sentences.
The ambient cancellation predicate `shouldCancelCurrentTask` is modelled as
a function of the running checkpoint counter (one checkpoint per sentence,
evaluated before that sentence is synthesized).
-/

/-- JavaScript `String.prototype.trim`, modelled structurally over the
character list (Lean's own `String.trim` is not kernel-reducible): drop
whitespace from both ends. -/
def jsTrim (s : String) : String :=
  String.mk (((s.toList.dropWhile Char.isWhitespace).reverse.dropWhile
    Char.isWhitespace).reverse)

/-- The failure outcomes of a synthesis call. -/
inductive SynthesisError where
  | canceled
  | configuration (message : String)
deriving DecidableEq

/-- Sentence decomposition of one segment (lines 93-104): unless the input
is SSML, split to sentences (forced for the vits engine), drop
whitespace-only sentences, and replace an empty list by one empty sentence;
otherwise the segment is a single unit. -/
def segmentSentences (c : Collaborators) (options : SynthesisOptionsM)
    (segmentText : String) : List String :=
  if (options.splitToSentences || options.engine == some "vits") && !options.ssml then
    let sentences := (c.splitToSentences segmentText).filter (fun s => jsTrim s ≠ "")
    if sentences.isEmpty then [""] else sentences
  else [segmentText]

/-- The inner sentence loop (lines 109-164): before each sentence, evaluate
the cancellation predicate at the current checkpoint and abort with
`canceled` if it holds; otherwise synthesize the sentence, trim the
end-pause from its tail, advance the time offset by the trimmed duration,
and emit a sentence entry whose children are the sentence timeline shifted
by the sentence start time. Returns the sentence entries, the sentence
audio buffers, the final time offset and the next checkpoint index. -/
def synthesizeSentencesLoop (c : Collaborators) (cancel : Nat → Bool)
    (options : SynthesisOptionsM) :
    List String → ℚ → Nat →
      Except SynthesisError (List TimelineEntry × List RawAudio × ℚ × Nat)
  | [], timeOffset, checkpoint => .ok ([], [], timeOffset, checkpoint)
  | sentence :: rest, timeOffset, checkpoint =>
    if cancel checkpoint then .error .canceled
    else
      let sentenceText := jsTrim sentence
      let synthesized := synthesizeSegmentPipeline c options sentenceText
      let endPause := if rest.isEmpty then options.segmentEndPause else options.sentenceEndPause
      let trimmedSamples :=
        c.trimAudioEnd synthesized.1.samples (endPause * synthesized.1.sampleRate)
      let sentenceAudio : RawAudio := ⟨trimmedSamples, synthesized.1.sampleRate⟩
      let sentenceAudioLength := (trimmedSamples.length : ℚ) / sentenceAudio.sampleRate
      let newTimeOffset := timeOffset + sentenceAudioLength
      let sentenceEntry : TimelineEntry := .mk "sentence" sentenceText timeOffset newTimeOffset
        (addTimeOffsetToTimeline synthesized.2 timeOffset)
      match synthesizeSentencesLoop c cancel options rest newTimeOffset (checkpoint + 1) with
      | .error e => .error e
      | .ok (entries, audios, finalOffset, cp) =>
        .ok (sentenceEntry :: entries, sentenceAudio :: audios, finalOffset, cp)

/-- The outer segment loop (lines 78-200): trim the segment text, decompose
it into sentences, run the sentence loop, and emit a segment entry whose
children are the sentence entries. -/
def synthesizeSegmentsLoop (c : Collaborators) (cancel : Nat → Bool)
    (options : SynthesisOptionsM) :
    List String → ℚ → Nat →
      Except SynthesisError (List TimelineEntry × List (List RawAudio) × ℚ × Nat)
  | [], timeOffset, checkpoint => .ok ([], [], timeOffset, checkpoint)
  | segment :: rest, timeOffset, checkpoint =>
    let segmentText := jsTrim segment
    let sentences := segmentSentences c options segmentText
    match synthesizeSentencesLoop c cancel options sentences timeOffset checkpoint with
    | .error e => .error e
    | .ok (sentenceEntries, sentenceAudios, newOffset, cp) =>
      let segmentEntry : TimelineEntry := .mk "segment" segmentText timeOffset newOffset
        sentenceEntries
      match synthesizeSegmentsLoop c cancel options rest newOffset cp with
      | .error e => .error e
      | .ok (entries, audios, finalOffset, cp2) =>
        .ok (segmentEntry :: entries, sentenceAudios :: audios, finalOffset, cp2)

/-- The timeline parts of a `SynthesizeSegmentsResult`: the top-level
timeline of segment entries, and the per-segment timelines re-based to the
segment start (line 184). -/
structure SynthesizeSegmentsResultM where
  timeline : List TimelineEntry
  segmentsTimelines : List (List TimelineEntry)
deriving Nonempty

/-- `synthesizeSegments` (lines 28-224), restricted to its timeline
bookkeeping: run the segment loop from time zero and checkpoint zero, and
package the top-level timeline together with the segment-relative
timelines. -/
def synthesizeSegmentsModel (c : Collaborators) (cancel : Nat → Bool)
    (options : SynthesisOptionsM) (segments : List String) :
    Except SynthesisError SynthesizeSegmentsResultM :=
  match synthesizeSegmentsLoop c cancel options segments 0 0 with
  | .error e => .error e
  | .ok (entries, _, _, _) =>
    .ok { timeline := entries
          segmentsTimelines :=
            entries.map (fun seg => addTimeOffsetToTimeline seg.timeline (-seg.startTime)) }

/-- The number of sentence checkpoints a run of `synthesizeSegments`
reaches when not canceled: one per decomposed sentence. -/
def totalSentenceCount (c : Collaborators) (options : SynthesisOptionsM)
    (segments : List String) : Nat :=
  (segments.map (fun seg => (segmentSentences c options (jsTrim seg)).length)).sum

/-- Every entry of the timeline returned by the sentence pipeline passes the
word filter, since the filter is the last step of the pipeline. -/
theorem pipeline_timeline_words (c : Collaborators) (options : SynthesisOptionsM)
    (text : String) :
    ∀ e ∈ (synthesizeSegmentPipeline c options text).2, isWord e.text = true := by
  intro e he
  simp only [synthesizeSegmentPipeline] at he
  exact (List.mem_filter.mp he).2

/-- Every sentence entry produced by the sentence loop has only word-class
texts in its child timeline. -/
theorem sentencesLoop_word_entries (c : Collaborators) (cancel : Nat → Bool)
    (options : SynthesisOptionsM) (sentences : List String) :
    ∀ (timeOffset : ℚ) (checkpoint : Nat) (entries : List TimelineEntry)
      (audios : List RawAudio) (finalOffset : ℚ) (cp : Nat),
      synthesizeSentencesLoop c cancel options sentences timeOffset checkpoint
        = .ok (entries, audios, finalOffset, cp) →
      ∀ ent ∈ entries, ∀ w ∈ ent.timeline, isWord w.text = true := by
  induction sentences with
  | nil =>
    intro timeOffset checkpoint entries audios finalOffset cp h ent hent
    simp only [synthesizeSentencesLoop] at h
    obtain ⟨he, _⟩ := Prod.mk.injEq .. ▸ (Except.ok.injEq .. ▸ h)
    rw [← he] at hent
    simp at hent
  | cons s rest ih =>
    intro timeOffset checkpoint entries audios finalOffset cp h ent hent w hw
    simp only [synthesizeSentencesLoop] at h
    by_cases hc : cancel checkpoint = true
    · rw [if_pos hc] at h
      exact absurd h (by simp)
    · rw [if_neg hc] at h
      cases hrec : synthesizeSentencesLoop c cancel options rest
          (timeOffset + ((c.trimAudioEnd (synthesizeSegmentPipeline c options (jsTrim s)).1.samples
            ((if rest.isEmpty then options.segmentEndPause else options.sentenceEndPause)
              * (synthesizeSegmentPipeline c options (jsTrim s)).1.sampleRate)).length : ℚ)
            / (synthesizeSegmentPipeline c options (jsTrim s)).1.sampleRate)
          (checkpoint + 1) with
      | error e =>
        rw [hrec] at h
        exact absurd h (by simp)
      | ok result =>
        obtain ⟨entries2, audios2, finalOffset2, cp2⟩ := result
        rw [hrec] at h
        simp only [Except.ok.injEq, Prod.mk.injEq] at h
        obtain ⟨⟨he, _, _, _⟩⟩ := And.intro h trivial
        rw [← he] at hent
        rcases List.mem_cons.mp hent with h1 | h2
        · subst h1
          simp only [TimelineEntry.timeline] at hw
          obtain ⟨e0, he0, htext⟩ := mem_addOffset_text _ _ _ hw
          rw [htext]
          exact pipeline_timeline_words c options (jsTrim s) e0 he0
        · exact ih _ _ _ _ _ _ hrec ent h2 w hw

/-- Every segment entry produced by the segment loop has only word-class
texts below its sentence entries. -/
theorem segmentsLoop_word_entries (c : Collaborators) (cancel : Nat → Bool)
    (options : SynthesisOptionsM) (segments : List String) :
    ∀ (timeOffset : ℚ) (checkpoint : Nat) (entries : List TimelineEntry)
      (audios : List (List RawAudio)) (finalOffset : ℚ) (cp : Nat),
      synthesizeSegmentsLoop c cancel options segments timeOffset checkpoint
        = .ok (entries, audios, finalOffset, cp) →
      ∀ seg ∈ entries, ∀ sent ∈ seg.timeline, ∀ w ∈ sent.timeline, isWord w.text = true := by
  induction segments with
  | nil =>
    intro timeOffset checkpoint entries audios finalOffset cp h seg hseg
    simp only [synthesizeSegmentsLoop] at h
    obtain ⟨he, _⟩ := Prod.mk.injEq .. ▸ (Except.ok.injEq .. ▸ h)
    rw [← he] at hseg
    simp at hseg
  | cons s rest ih =>
    intro timeOffset checkpoint entries audios finalOffset cp h seg hseg sent hsent w hw
    simp only [synthesizeSegmentsLoop] at h
    cases hsl : synthesizeSentencesLoop c cancel options
        (segmentSentences c options (jsTrim s)) timeOffset checkpoint with
    | error e =>
      rw [hsl] at h
      exact absurd h (by simp)
    | ok result =>
      obtain ⟨sentenceEntries, sentenceAudios, newOffset, cp1⟩ := result
      simp only [hsl] at h
      cases hrec : synthesizeSegmentsLoop c cancel options rest newOffset cp1 with
      | error e =>
        simp only [hrec] at h
        exact absurd h (by simp)
      | ok result2 =>
        obtain ⟨entries2, audios2, finalOffset2, cp2⟩ := result2
        simp only [hrec, Except.ok.injEq, Prod.mk.injEq] at h
        obtain ⟨⟨he, _, _, _⟩⟩ := And.intro h trivial
        rw [← he] at hseg
        rcases List.mem_cons.mp hseg with h1 | h2
        · subst h1
          simp only [TimelineEntry.timeline] at hsent
          exact sentencesLoop_word_entries c cancel options _ _ _ _ _ _ _ hsl sent hsent w hw
        · exact ih _ _ _ _ _ _ hrec seg h2 sent hsent w hw

/-- All word entries (the children of sentence entries) of a result carry
word-class text. -/
def wordEntriesAllWords (r : SynthesizeSegmentsResultM) : Bool :=
  r.timeline.all (fun seg => seg.timeline.all (fun sent =>
    sent.timeline.all (fun w => isWord w.text)))

/-- C3 (amended): the word filter is applied once, at the very end of each
per-sentence synthesis; consequently in every successful result every entry
below a sentence entry (the word level) has word-class text. The original
claim's stronger form — that no entry anywhere in the top-level timeline,
including segment and sentence entries, is punctuation-only or
whitespace-only — is refuted by
`synthesizeSegments_contains_punctuation_entry`: segment and sentence
entries carry the raw input text, which the word filter never touches. -/
theorem synthesizeSegments_word_entries_are_words (c : Collaborators) (cancel : Nat → Bool)
    (options : SynthesisOptionsM) (segments : List String) :
    Option.all wordEntriesAllWords (synthesizeSegmentsModel c cancel options segments).toOption
      = true := by
  cases hm : synthesizeSegmentsModel c cancel options segments with
  | error e => rfl
  | ok r =>
    simp only [Except.toOption, Option.all]
    rw [synthesizeSegmentsModel] at hm
    cases hloop : synthesizeSegmentsLoop c cancel options segments 0 0 with
    | error e =>
      rw [hloop] at hm
      exact absurd hm (by simp)
    | ok result =>
      obtain ⟨entries, audios, finalOffset, cp⟩ := result
      simp only [hloop, Except.ok.injEq] at hm
      have hall := segmentsLoop_word_entries c cancel options segments 0 0
        entries audios finalOffset cp hloop
      have ht : r.timeline = entries := by rw [← hm]
      rw [wordEntriesAllWords, ht]
      refine List.all_eq_true.mpr ?_
      intro seg hseg
      refine List.all_eq_true.mpr ?_
      intro sent hsent
      refine List.all_eq_true.mpr ?_
      intro w hw
      exact hall seg hseg sent hsent w hw

/-- Concrete collaborators for the counterexample run: the splitter returns
the segment unchanged, the backend returns a two-sample buffer with an
empty timeline, trimming and stretching are identities. -/
def cexCollaborators : Collaborators where
  splitToSentences := fun s => [s]
  backend := fun _ =>
    { audio := ⟨[0, 0], 1⟩, timeline := some []
      shouldPostprocessSpeed := false, shouldPostprocessPitch := false }
  trimAudioStart := fun samples => samples
  trimAudioEnd := fun samples _ => samples
  align := fun _ _ => []
  stretchTimePitch := fun audio _ _ => audio

/-- Counterexample to C3 as stated: synthesizing the single segment `"..."`
succeeds, and the returned top-level timeline contains an entry (the
segment entry, text `"..."`) whose text is punctuation-only — the word
filter prunes only the word-level timelines, not segment or sentence
entries. -/
theorem synthesizeSegments_contains_punctuation_entry :
    (match synthesizeSegmentsModel cexCollaborators (fun _ => false) {} ["..."] with
      | .ok r => r.timeline.any (fun e => !(isWord e.text))
      | .error _ => false) = true := by
  decide

/-- Exhaustive behaviour of the sentence loop: either some checkpoint in
range fires and the loop fails with `canceled`, or no checkpoint fires and
the loop succeeds, having consumed exactly one checkpoint per sentence. -/
theorem sentencesLoop_cases (c : Collaborators) (cancel : Nat → Bool)
    (options : SynthesisOptionsM) (sentences : List String) :
    ∀ (timeOffset : ℚ) (checkpoint : Nat),
      (∃ i, i < sentences.length ∧ cancel (checkpoint + i) = true
        ∧ synthesizeSentencesLoop c cancel options sentences timeOffset checkpoint
            = .error .canceled)
      ∨ ((∀ i, i < sentences.length → cancel (checkpoint + i) = false)
        ∧ ∃ entries audios finalOffset,
            synthesizeSentencesLoop c cancel options sentences timeOffset checkpoint
              = .ok (entries, audios, finalOffset, checkpoint + sentences.length)) := by
  induction sentences with
  | nil =>
    intro timeOffset checkpoint
    right
    refine ⟨fun i hi => absurd hi (by simp), [], [], timeOffset, ?_⟩
    simp [synthesizeSentencesLoop]
  | cons s rest ih =>
    intro timeOffset checkpoint
    by_cases hc : cancel checkpoint = true
    · left
      refine ⟨0, by simp, by simpa using hc, ?_⟩
      simp only [synthesizeSentencesLoop]
      rw [if_pos hc]
    · rcases ih (timeOffset
          + ((c.trimAudioEnd (synthesizeSegmentPipeline c options (jsTrim s)).1.samples
            ((if rest.isEmpty then options.segmentEndPause else options.sentenceEndPause)
              * (synthesizeSegmentPipeline c options (jsTrim s)).1.sampleRate)).length : ℚ)
            / (synthesizeSegmentPipeline c options (jsTrim s)).1.sampleRate)
          (checkpoint + 1) with hcanc | hok
      · left
        obtain ⟨i, hi, hci, herr⟩ := hcanc
        refine ⟨i + 1, by simpa using hi,
          by rw [show checkpoint + (i + 1) = checkpoint + 1 + i by omega]; exact hci, ?_⟩
        simp only [synthesizeSentencesLoop]
        rw [if_neg hc, herr]
      · right
        obtain ⟨hall, e1, a1, f1, hok2⟩ := hok
        constructor
        · intro i hi
          cases i with
          | zero => simpa using hc
          | succ j =>
            rw [show checkpoint + (j + 1) = checkpoint + 1 + j by omega]
            exact hall j (by simpa using hi)
        · rw [show checkpoint + (s :: rest).length = checkpoint + 1 + rest.length by
            simp only [List.length_cons]; omega]
          simp only [synthesizeSentencesLoop]
          rw [if_neg hc, hok2]
          exact ⟨_, _, _, rfl⟩

/-- One segment contributes its sentence count to the checkpoint total. -/
theorem totalSentenceCount_cons (c : Collaborators) (options : SynthesisOptionsM)
    (s : String) (rest : List String) :
    totalSentenceCount c options (s :: rest)
      = (segmentSentences c options (jsTrim s)).length + totalSentenceCount c options rest := by
  simp [totalSentenceCount]

/-- Exhaustive behaviour of the segment loop: either some sentence
checkpoint in range fires and the loop fails with `canceled`, or none fires
and the loop succeeds, having consumed one checkpoint per sentence of every
segment. -/
theorem segmentsLoop_cases (c : Collaborators) (cancel : Nat → Bool)
    (options : SynthesisOptionsM) (segments : List String) :
    ∀ (timeOffset : ℚ) (checkpoint : Nat),
      (∃ i, i < totalSentenceCount c options segments ∧ cancel (checkpoint + i) = true
        ∧ synthesizeSegmentsLoop c cancel options segments timeOffset checkpoint
            = .error .canceled)
      ∨ ((∀ i, i < totalSentenceCount c options segments → cancel (checkpoint + i) = false)
        ∧ ∃ entries audios finalOffset,
            synthesizeSegmentsLoop c cancel options segments timeOffset checkpoint
              = .ok (entries, audios, finalOffset,
                  checkpoint + totalSentenceCount c options segments)) := by
  induction segments with
  | nil =>
    intro timeOffset checkpoint
    right
    refine ⟨fun i hi => absurd hi (by simp [totalSentenceCount]), [], [], timeOffset, ?_⟩
    simp [synthesizeSegmentsLoop, totalSentenceCount]
  | cons s rest ih =>
    intro timeOffset checkpoint
    rcases sentencesLoop_cases c cancel options (segmentSentences c options (jsTrim s))
        timeOffset checkpoint with hcanc | hok
    · left
      obtain ⟨i, hi, hci, herr⟩ := hcanc
      refine ⟨i, by rw [totalSentenceCount_cons]; omega, hci, ?_⟩
      simp only [synthesizeSegmentsLoop]
      rw [herr]
    · obtain ⟨hall1, sentenceEntries, sentenceAudios, newOffset, hok1⟩ := hok
      rcases ih newOffset (checkpoint + (segmentSentences c options (jsTrim s)).length)
          with hcanc2 | hok2
      · left
        obtain ⟨i, hi, hci, herr⟩ := hcanc2
        refine ⟨(segmentSentences c options (jsTrim s)).length + i,
          by rw [totalSentenceCount_cons]; omega,
          by rw [show checkpoint + ((segmentSentences c options (jsTrim s)).length + i)
                = checkpoint + (segmentSentences c options (jsTrim s)).length + i by omega]
             exact hci, ?_⟩
        simp only [synthesizeSegmentsLoop, hok1, herr]
      · right
        obtain ⟨hall2, entries2, audios2, finalOffset2, hok3⟩ := hok2
        constructor
        · intro i hi
          by_cases hsplit : i < (segmentSentences c options (jsTrim s)).length
          · exact hall1 i hsplit
          · rw [show checkpoint + i
                = checkpoint + (segmentSentences c options (jsTrim s)).length
                    + (i - (segmentSentences c options (jsTrim s)).length) by omega]
            refine hall2 _ ?_
            rw [totalSentenceCount_cons] at hi
            omega
        · rw [show checkpoint + totalSentenceCount c options (s :: rest)
              = checkpoint + (segmentSentences c options (jsTrim s)).length
                  + totalSentenceCount c options rest by
            rw [totalSentenceCount_cons]; omega]
          simp only [synthesizeSegmentsLoop, hok1, hok3]
          exact ⟨_, _, _, rfl⟩

/-- C7: `synthesizeSegments` evaluates the cancellation predicate before
synthesizing each sentence, and the whole call fails with the dedicated
`canceled` error exactly when some reached checkpoint fires — in
particular, no partial result is ever returned for a canceled call, and
cancellation effective before the second sentence of a two-sentence input
aborts the call. -/
theorem synthesizeSegments_cancellation_spec (c : Collaborators) (cancel : Nat → Bool)
    (options : SynthesisOptionsM) (segments : List String) :
    synthesizeSegmentsModel c cancel options segments = .error .canceled
      ↔ ∃ n, n < totalSentenceCount c options segments ∧ cancel n = true := by
  rcases segmentsLoop_cases c cancel options segments 0 0 with hcanc | hok
  · obtain ⟨i, hi, hci, herr⟩ := hcanc
    constructor
    · intro _
      exact ⟨i, hi, by simpa using hci⟩
    · intro _
      rw [synthesizeSegmentsModel, herr]
  · obtain ⟨hall, entries, audios, finalOffset, hok2⟩ := hok
    constructor
    · intro h
      rw [synthesizeSegmentsModel] at h
      simp only [hok2] at h
      exact absurd h (by simp)
    · intro h
      obtain ⟨n, hn, hcn⟩ := h
      have hfalse := hall n hn
      rw [Nat.zero_add, hcn] at hfalse
      exact absurd hfalse (by simp)

/-- C5: when a timeline is attached before the leading-silence trim, the
trim step shifts every timestamp of the timeline by exactly
`newDuration - oldDuration`, that is, decreases it by exactly the duration
`d` of the removed leading audio, keeping the timeline absolutely aligned
with the shortened audio. -/
theorem trimStep_shifts_timeline_exactly (trimStart : List ℚ → List ℚ)
    (audio : RawAudio) (tl : List TimelineEntry) :
    ∃ tl2, (applyStartTrimStep trimStart audio (some tl)).timeline = some tl2
      ∧ timelineTimes tl2
          = (timelineTimes tl).map (fun t => t - trimmedLeadingDuration trimStart audio) := by
  refine ⟨_, rfl, ?_⟩
  show timelineTimes (addTimeOffsetToTimeline tl
      (((trimStart audio.samples).length : ℚ) / audio.sampleRate
        - (audio.samples.length : ℚ) / audio.sampleRate)) = _
  rw [timelineTimes_addOffset]
  refine List.map_congr_left ?_
  intro t _
  rw [trimmedLeadingDuration]
  ring

/-- When the time-stretch factor is present, nonzero and different from
one, the shifting step rescales the attached timeline by the reciprocal of
the factor. -/
theorem applyTimePitchShiftStep_timeline (stretch : RawAudio → ℚ → ℚ → RawAudio)
    (audio : RawAudio) (tl : List TimelineEntry) (pitchShiftFactor : Option ℚ) (fv : ℚ)
    (h1 : fv ≠ 1) (h0 : fv ≠ 0) :
    (applyTimePitchShiftStep stretch audio tl (some fv) pitchShiftFactor).2
      = multiplyTimelineByFactor tl (1 / fv) := by
  have hjs : jsOrOne (some fv) = fv := by rw [jsOrOne]; exact if_neg h0
  simp only [applyTimePitchShiftStep]
  rw [if_pos (Or.inl ⟨by simp, by simpa using h1⟩)]
  show (if jsOrOne (some fv) ≠ 1 then multiplyTimelineByFactor tl (1 / jsOrOne (some fv))
      else tl) = _
  rw [hjs, if_pos h1]

/-- C6: when the resolved time-stretch factor (explicit post-processing
speed, or the requested speed when the backend defers speed handling) is a
value `fv` that differs from one (and from zero, where the source falls
back to one), the shifting step multiplies every timeline timestamp by
exactly `1 / fv`; consequently stretching by `fv` and then by `1 / fv`
restores every timestamp exactly. -/
theorem timeStretch_rescales_and_roundtrip
    (stretch : RawAudio → ℚ → ℚ → RawAudio) (audio audio2 : RawAudio)
    (tl : List TimelineEntry) (pitchShiftFactor : Option ℚ)
    (explicitSpeed : Option ℚ) (shouldPostprocess : Bool) (speed fv : ℚ)
    (hf : computeTimeStretchFactor explicitSpeed shouldPostprocess speed = some fv)
    (h1 : fv ≠ 1) (h0 : fv ≠ 0) :
    timelineTimes (applyTimePitchShiftStep stretch audio tl
        (computeTimeStretchFactor explicitSpeed shouldPostprocess speed) pitchShiftFactor).2
      = (timelineTimes tl).map (fun t => t * (1 / fv))
    ∧ timelineTimes (applyTimePitchShiftStep stretch audio2
        (applyTimePitchShiftStep stretch audio tl (some fv) pitchShiftFactor).2
        (some (1 / fv)) pitchShiftFactor).2
      = timelineTimes tl := by
  have h1r : (1 : ℚ) / fv ≠ 1 := by
    intro h
    exact h1 ((div_eq_one_iff_eq h0).mp h).symm
  have h0r : (1 : ℚ) / fv ≠ 0 := one_div_ne_zero h0
  constructor
  · rw [hf, applyTimePitchShiftStep_timeline stretch audio tl pitchShiftFactor fv h1 h0,
      timelineTimes_multiply]
  · rw [applyTimePitchShiftStep_timeline stretch audio tl pitchShiftFactor fv h1 h0,
      applyTimePitchShiftStep_timeline stretch audio2 _ pitchShiftFactor (1 / fv) h1r h0r,
      timelineTimes_multiply, timelineTimes_multiply, List.map_map]
    rw [one_div_one_div]
    have : (timelineTimes tl).map ((fun t => t * fv) ∘ fun t => t * (1 / fv))
        = (timelineTimes tl).map (fun t => t) := by
      refine List.map_congr_left ?_
      intro t _
      show t * (1 / fv) * fv = t
      rw [mul_assoc, one_div_mul_cancel h0, mul_one]
    rw [this, List.map_id']

/-- Witness for C6: with factor 2, a timeline with timestamps 1 and 2 is
rescaled to timestamps 1/2 and 1, and stretching by 2 then by 1/2 restores
the original timestamps. -/
theorem timeStretch_rescale_witness :
    timelineTimes (applyTimePitchShiftStep (fun a _ _ => a) ⟨[], 1⟩
        [TimelineEntry.mk "word" "hi" 1 2 []]
        (computeTimeStretchFactor (some 2) false 1) none).2
      = (timelineTimes [TimelineEntry.mk "word" "hi" 1 2 []]).map (fun t => t * (1 / 2))
    ∧ timelineTimes (applyTimePitchShiftStep (fun a _ _ => a) ⟨[], 1⟩
        (applyTimePitchShiftStep (fun a _ _ => a) ⟨[], 1⟩
          [TimelineEntry.mk "word" "hi" 1 2 []] (some 2) none).2
        (some (1 / 2)) none).2
      = timelineTimes [TimelineEntry.mk "word" "hi" 1 2 []] :=
  timeStretch_rescales_and_roundtrip (fun a _ _ => a) ⟨[], 1⟩ ⟨[], 1⟩
    [TimelineEntry.mk "word" "hi" 1 2 []] none (some 2) false 1 2 rfl
    (by norm_num) (by norm_num)

/-!
### Engine selection (Synthesis.ts, lines 42-50 and 1449-1495)
-/

/-- `getAllLangCodesFromVoiceList` (lines 1479-1495): the language codes
declared by the voices of a list, in first-seen order without duplicates. -/
def getAllLangCodesFromVoiceList (voiceList : List SynthesisVoice) : List String :=
  voiceList.foldl (fun langList voice =>
    voice.languages.foldl (fun acc langCode =>
      if langCode ∈ acc then acc else acc ++ [langCode]) langList) []

theorem mem_langCodes_foldl (codes : List String) :
    ∀ (acc : List String) (x : String),
      x ∈ codes.foldl (fun acc langCode =>
          if langCode ∈ acc then acc else acc ++ [langCode]) acc
        ↔ x ∈ acc ∨ x ∈ codes := by
  induction codes with
  | nil => simp
  | cons chead ctail ih =>
    intro acc x
    simp only [List.foldl_cons]
    by_cases hc : chead ∈ acc
    · rw [if_pos hc, ih]
      constructor
      · rintro (h | h)
        · exact Or.inl h
        · exact Or.inr (List.mem_cons_of_mem _ h)
      · rintro (h | h)
        · exact Or.inl h
        · rcases List.mem_cons.mp h with h1 | h2
          · exact Or.inl (h1 ▸ hc)
          · exact Or.inr h2
    · rw [if_neg hc, ih]
      simp only [List.mem_append, List.mem_singleton, List.mem_cons]
      tauto

/-- Membership in the deduplicated code list is exactly "some voice of the
list declares the language". -/
theorem mem_getAllLangCodes (voiceList : List SynthesisVoice) (x : String) :
    x ∈ getAllLangCodesFromVoiceList voiceList ↔ ∃ v ∈ voiceList, x ∈ v.languages := by
  rw [getAllLangCodesFromVoiceList]
  suffices h : ∀ acc : List String,
      x ∈ voiceList.foldl (fun langList voice =>
        voice.languages.foldl (fun acc langCode =>
          if langCode ∈ acc then acc else acc ++ [langCode]) langList) acc
      ↔ x ∈ acc ∨ ∃ v ∈ voiceList, x ∈ v.languages by
    rw [h []]
    simp
  induction voiceList with
  | nil => simp
  | cons v rest ih =>
    intro acc
    simp only [List.foldl_cons]
    rw [ih, mem_langCodes_foldl]
    simp only [List.mem_cons]
    constructor
    · rintro ((h | h) | ⟨w, hw, hx⟩)
      · exact Or.inl h
      · exact Or.inr ⟨v, Or.inl rfl, h⟩
      · exact Or.inr ⟨w, Or.inr hw, hx⟩
    · rintro (h | ⟨w, hw | hw, hx⟩)
      · exact Or.inl (Or.inl h)
      · exact Or.inl (Or.inr (hw ▸ hx))
      · exact Or.inr ⟨w, hw, hx⟩

/-- `selectBestOfflineEngineForLanguage` (lines 1449-1477): probe, in the
fixed order vits then flite then pico, whether any voice of the engine
declares the (already normalized) language; fall back to espeak. The three
engine voice lists are external collaborators. -/
def selectBestOfflineEngineForLanguage
    (vitsVoices fliteVoices picoVoices : List SynthesisVoice) (language : String) : String :=
  if language ∈ getAllLangCodesFromVoiceList vitsVoices then "vits"
  else if language ∈ getAllLangCodesFromVoiceList fliteVoices then "flite"
  else if language ∈ getAllLangCodesFromVoiceList picoVoices then "pico"
  else "espeak"

/-- Engine resolution of `synthesizeSegments` (lines 42-50): when no engine
is specified, a named voice is a configuration error (raised before any
backend is involved); otherwise the engine is chosen by offline probing on
the resolved language. -/
def resolveEngine (engine : Option String) (voice : Option String) (language : String)
    (vitsVoices fliteVoices picoVoices : List SynthesisVoice) :
    Except SynthesisError String :=
  match engine with
  | some e => .ok e
  | none =>
    match voice with
    | some v =>
      .error (.configuration
        ("Voice " ++ v ++ " was specified but no engine was specified."))
    | none =>
      .ok (selectBestOfflineEngineForLanguage vitsVoices fliteVoices picoVoices language)

/-- C4: with no engine specified, a named voice makes the call fail with a
configuration error before any backend is invoked; otherwise the offline
engine is selected by probing, in the fixed order vits, flite, pico,
whether any voice of that engine declares the resolved language, falling
back to espeak. -/
theorem engine_selection_spec (vitsVoices fliteVoices picoVoices : List SynthesisVoice)
    (language : String) (voice : Option String) :
    (∀ v, voice = some v →
      ∃ msg, resolveEngine none voice language vitsVoices fliteVoices picoVoices
          = .error (.configuration msg)) ∧
    (voice = none →
      resolveEngine none voice language vitsVoices fliteVoices picoVoices
        = .ok (if ∃ vv ∈ vitsVoices, language ∈ vv.languages then "vits"
            else if ∃ vv ∈ fliteVoices, language ∈ vv.languages then "flite"
            else if ∃ vv ∈ picoVoices, language ∈ vv.languages then "pico"
            else "espeak")) := by
  constructor
  · intro v hv
    subst hv
    exact ⟨_, rfl⟩
  · intro hv
    subst hv
    rw [resolveEngine]
    simp only [selectBestOfflineEngineForLanguage, mem_getAllLangCodes]

/-- Witness for C4: a named voice without an engine is a configuration
error; with no voice, a language declared only by a flite voice selects
flite (vits probed first and empty, pico never reached). -/
theorem engine_selection_witness :
    (∃ msg, resolveEngine none (some "voiceX") "en" []
        [⟨"kal", ["en-US", "en"], "male"⟩] [] = .error (.configuration msg)) ∧
    resolveEngine none none "en" [] [⟨"kal", ["en-US", "en"], "male"⟩] []
      = .ok "flite" := by
  constructor
  · exact (engine_selection_spec [] [⟨"kal", ["en-US", "en"], "male"⟩] []
      "en" (some "voiceX")).1 "voiceX" rfl
  · rw [(engine_selection_spec [] [⟨"kal", ["en-US", "en"], "male"⟩] [] "en" none).2 rfl]
    congr 1

/-!
### SSML parameter conversions (Synthesis.ts, lines 834-865, 293)
-/

/-- The per-gender fundamental-frequency estimate of
`convertPitchScaleToSSMLValueString` (lines 845-856): 120 Hz for male,
210 Hz for female, 165 Hz otherwise. -/
def genderFundamentalFrequency (voiceGender : String) : ℤ :=
  if voiceGender = "male" then 120
  else if voiceGender = "female" then 210
  else 165

/-- `convertSpeedScaleToSSMLValueString` (lines 834-842). -/
def convertSpeedScaleToSSMLValueString (rate : ℚ) : String :=
  if rate ≥ 1 then
    "+" ++ toString ⌊(rate - 1) * 100⌋ ++ "%"
  else
    "-" ++ toString ⌊(1 / rate - 1) * 100⌋ ++ "%"

/-- `convertPitchScaleToSSMLValueString` (lines 844-865). -/
def convertPitchScaleToSSMLValueString (pitch : ℚ) (voiceGender : String) : String :=
  if pitch ≥ 1 then
    "+" ++ toString (⌊pitch * (genderFundamentalFrequency voiceGender : ℚ)⌋
      - genderFundamentalFrequency voiceGender) ++ "Hz"
  else
    "-" ++ toString (genderFundamentalFrequency voiceGender
      - ⌊pitch * (genderFundamentalFrequency voiceGender : ℚ)⌋) ++ "Hz"

/-- The vits length scale (line 293): the reciprocal of the clipped speed. -/
def vitsLengthScale (speed : ℚ) : ℚ := 1 / speed

/-- Rendering of a signed hertz delta, following the wording of the spec:
the sign as prefix, then the magnitude, then the unit. -/
def signedHertzDeltaString (d : ℤ) : String :=
  if d ≥ 0 then "+" ++ toString d ++ "Hz" else "-" ++ toString (-d) ++ "Hz"

/-- C8: over the clipped speed and pitch ranges, the SSML rate string is
`+floor((s-1)*100)%` for s ≥ 1 and `-floor((1/s-1)*100)%` for s < 1; the
SSML pitch string is the signed hertz delta `floor(p*f0) - f0` relative to
the per-gender fundamental frequency f0 (male 120, female 210, otherwise
165); and the vits length scale is `1/s`. -/
theorem ssml_parameter_conversion_spec (s p : ℚ) (g : String)
    (_hs : 1 / 10 ≤ s ∧ s ≤ 10) (_hp : 1 / 10 ≤ p ∧ p ≤ 10) :
    ((1 ≤ s → convertSpeedScaleToSSMLValueString s
        = "+" ++ toString ⌊(s - 1) * 100⌋ ++ "%")
      ∧ (s < 1 → convertSpeedScaleToSSMLValueString s
        = "-" ++ toString ⌊(1 / s - 1) * 100⌋ ++ "%"))
    ∧ convertPitchScaleToSSMLValueString p g
        = signedHertzDeltaString (⌊p * (genderFundamentalFrequency g : ℚ)⌋
            - genderFundamentalFrequency g)
    ∧ genderFundamentalFrequency "male" = 120
    ∧ genderFundamentalFrequency "female" = 210
    ∧ (g ≠ "male" → g ≠ "female" → genderFundamentalFrequency g = 165)
    ∧ vitsLengthScale s = 1 / s := by
  have hf0 : 0 < genderFundamentalFrequency g := by
    rw [genderFundamentalFrequency]
    split
    · norm_num
    · split <;> norm_num
  have hf0q : (0 : ℚ) < (genderFundamentalFrequency g : ℚ) := by exact_mod_cast hf0
  refine ⟨⟨?_, ?_⟩, ?_, rfl, rfl, ?_, rfl⟩
  · intro h
    rw [convertSpeedScaleToSSMLValueString, if_pos h]
  · intro h
    rw [convertSpeedScaleToSSMLValueString, if_neg (not_le.mpr h)]
  · rw [convertPitchScaleToSSMLValueString]
    by_cases hge : p ≥ 1
    · rw [if_pos hge]
      have hfloor : genderFundamentalFrequency g
          ≤ ⌊p * (genderFundamentalFrequency g : ℚ)⌋ := by
        rw [Int.le_floor]
        calc ((genderFundamentalFrequency g : ℤ) : ℚ)
            = 1 * (genderFundamentalFrequency g : ℚ) := (one_mul _).symm
          _ ≤ p * (genderFundamentalFrequency g : ℚ) :=
            mul_le_mul_of_nonneg_right hge (le_of_lt hf0q)
      rw [signedHertzDeltaString, if_pos (by omega)]
    · rw [if_neg hge]
      have hfloor : ⌊p * (genderFundamentalFrequency g : ℚ)⌋
          < genderFundamentalFrequency g := by
        rw [Int.floor_lt]
        calc p * (genderFundamentalFrequency g : ℚ)
            < 1 * (genderFundamentalFrequency g : ℚ) :=
              mul_lt_mul_of_pos_right (not_le.mp hge) hf0q
          _ = ((genderFundamentalFrequency g : ℤ) : ℚ) := one_mul _
      rw [signedHertzDeltaString, if_neg (by omega), neg_sub]
  · intro h1 h2
    rw [genderFundamentalFrequency, if_neg h1, if_neg h2]

/-- Witness for C8: speed 2 renders as `+100%`, pitch 1/2 with a male voice
renders as `-60Hz` (floor(0.5*120) - 120 = -60), and the vits length scale
of speed 2 is 1/2. -/
theorem ssml_parameter_conversion_witness :
    convertSpeedScaleToSSMLValueString 2 = "+100%"
    ∧ convertPitchScaleToSSMLValueString (1 / 2) "male" = "-60Hz"
    ∧ vitsLengthScale 2 = 1 / 2 := by
  have h := ssml_parameter_conversion_spec 2 (1 / 2) "male" (by norm_num) (by norm_num)
  refine ⟨?_, ?_, h.2.2.2.2.2⟩
  · rw [h.1.1 (by norm_num)]
    rw [show ⌊((2:ℚ) - 1) * 100⌋ = 100 by norm_num]
    decide
  · rw [h.2.1]
    rw [show ⌊((1:ℚ) / 2) * (genderFundamentalFrequency "male" : ℚ)⌋
          - genderFundamentalFrequency "male" = -60 by
      rw [show genderFundamentalFrequency "male" = 120 from rfl]
      norm_num]
    decide

/-!
### Transport client message handling (`Client` class)

The msgpack decoder is an external collaborator, modelled as a partial
decode function: `none` when `decodeMsgPack` throws (that exception is
caught by the try/catch at lines 25-30 of the handler), `some` a decoded
JavaScript value otherwise. The crucial distinction the model keeps is
between `null`/`undefined` decode results — reading any property of those
throws a TypeError — and every other value, whose `requestId` property
read yields the field or `undefined`. `Client.onMessage` is invoked at
line 32, *outside* that try/catch, and reads `incomingMessage.requestId`
unguarded at line 99. Registered response listeners are an association
list from request identifier to an opaque listener tag.
-/

/-- A decoded wire message other than `null`/`undefined`: its `requestId`
property (absent both for objects lacking the field and for non-object
primitives such as numbers or strings, whose property reads yield
`undefined` without throwing) and an opaque payload. -/
structure DecodedMessage where
  requestId : Option String
  payload : Nat
deriving DecidableEq

/-- A successfully decoded JavaScript value: `null`/`undefined` (any
property read throws a TypeError), or any other value represented by its
`requestId` property and payload. msgpack can produce the nullish case —
the nil byte 0xc0 decodes successfully to `null`. -/
inductive DecodedValue where
  | nullish
  | object (message : DecodedMessage)
deriving DecidableEq

/-- The possible outcomes of handling one incoming WebSocket frame.
`crashedTypeError` marks the path where `onMessage` reads a property of a
nullish decode result: the TypeError escapes the message listener, since
the try/catch covers only the decode call. -/
inductive MessageOutcome where
  | ignoredNonBinary
  | ignoredDecodeFailure
  | crashedTypeError
  | droppedMissingRequestId
  | droppedNoListener
  | delivered (listenerTag : Nat) (message : DecodedMessage)
deriving DecidableEq

/-- The `ws.on("message")` handler plus `Client.onMessage`: a non-binary
frame is logged and ignored; a binary frame whose decode throws is logged
and ignored; a successful decode to `null`/`undefined` makes the unguarded
`incomingMessage.requestId` read at line 99 throw a TypeError outside any
try/catch; otherwise a JS-falsy request identifier (absent or empty) is
dropped, an identifier with no registered listener is dropped, and a
registered listener is invoked. -/
def handleWebSocketMessage (decode : List Nat → Option DecodedValue)
    (responseListeners : List (String × Nat)) (isBinary : Bool) (messageData : List Nat) :
    MessageOutcome :=
  if isBinary = false then .ignoredNonBinary
  else
    match decode messageData with
    | none => .ignoredDecodeFailure
    | some .nullish => .crashedTypeError
    | some (.object incomingMessage) =>
      match incomingMessage.requestId with
      | none => .droppedMissingRequestId
      | some requestId =>
        if requestId = "" then .droppedMissingRequestId
        else
          match responseListeners.find? (fun p => p.1 == requestId) with
          | none => .droppedNoListener
          | some p => .delivered p.2 incomingMessage

/-- C9 (amended): a non-binary frame is ignored; a binary frame whose
decode throws is ignored; a decoded non-nullish message lacking a request
identifier (absent or empty) is dropped; an identifier with no registered
listener is dropped; a listener is invoked only for its own registered
identifier — and in all of those cases handling returns normally. The
original claim's "never throws" is refuted by
`clientMessage_nil_frame_crashes`: a binary frame that decodes
successfully to `null` (msgpack nil) reaches the unguarded property read
in `onMessage` and throws a TypeError, which the handler model records as
`crashedTypeError` — exactly when the decode result is nullish. -/
theorem clientMessageHandling_spec (decode : List Nat → Option DecodedValue)
    (responseListeners : List (String × Nat)) (isBinary : Bool) (messageData : List Nat) :
    (isBinary = false →
      handleWebSocketMessage decode responseListeners isBinary messageData
        = .ignoredNonBinary) ∧
    (isBinary = true → decode messageData = none →
      handleWebSocketMessage decode responseListeners isBinary messageData
        = .ignoredDecodeFailure) ∧
    (isBinary = true →
      (handleWebSocketMessage decode responseListeners isBinary messageData
          = .crashedTypeError
        ↔ decode messageData = some .nullish)) ∧
    (∀ m, isBinary = true → decode messageData = some (.object m) →
      (m.requestId = none ∨ m.requestId = some "") →
      handleWebSocketMessage decode responseListeners isBinary messageData
        = .droppedMissingRequestId) ∧
    (∀ m rid, isBinary = true → decode messageData = some (.object m) →
      m.requestId = some rid → rid ≠ "" →
      responseListeners.find? (fun p => p.1 == rid) = none →
      handleWebSocketMessage decode responseListeners isBinary messageData
        = .droppedNoListener) ∧
    (∀ tag m, handleWebSocketMessage decode responseListeners isBinary messageData
        = .delivered tag m →
      ∃ rid, m.requestId = some rid
        ∧ responseListeners.find? (fun p => p.1 == rid) = some (rid, tag)) := by
  refine ⟨?_, ?_, ?_, ?_, ?_, ?_⟩
  · intro h
    rw [handleWebSocketMessage, if_pos h]
  · intro hb hd
    rw [handleWebSocketMessage, if_neg (by simp [hb]), hd]
  · intro hb
    rw [handleWebSocketMessage, if_neg (by simp [hb])]
    cases hd : decode messageData with
    | none => simp
    | some v =>
      cases v with
      | nullish => simp
      | object m =>
        simp only
        constructor
        · intro h
          cases hrid : m.requestId with
          | none =>
            simp only [hrid] at h
            exact absurd h (by simp)
          | some rid =>
            simp only [hrid] at h
            by_cases hne : rid = ""
            · rw [if_pos hne] at h
              exact absurd h (by simp)
            · rw [if_neg hne] at h
              cases hfind : responseListeners.find? (fun p => p.1 == rid) with
              | none =>
                simp only [hfind] at h
                exact absurd h (by simp)
              | some p =>
                simp only [hfind] at h
                exact absurd h (by simp)
        · intro h
          exact absurd h (by simp)
  · intro m hb hd hrid
    rw [handleWebSocketMessage, if_neg (by simp [hb])]
    simp only [hd]
    rcases hrid with h | h
    · rw [h]
    · rw [h]
      simp
  · intro m rid hb hd hrid hne hfind
    rw [handleWebSocketMessage, if_neg (by simp [hb])]
    simp only [hd, hrid, hfind]
    rw [if_neg hne]
  · intro tag m h
    rw [handleWebSocketMessage] at h
    by_cases hb : isBinary = false
    · rw [if_pos hb] at h
      exact absurd h (by simp)
    · rw [if_neg hb] at h
      cases hd : decode messageData with
      | none =>
        simp only [hd] at h
        exact absurd h (by simp)
      | some v =>
        cases v with
        | nullish =>
          simp only [hd] at h
          exact absurd h (by simp)
        | object m2 =>
          simp only [hd] at h
          cases hrid : m2.requestId with
          | none =>
            simp only [hrid] at h
            exact absurd h (by simp)
          | some rid =>
            simp only [hrid] at h
            by_cases hne : rid = ""
            · rw [if_pos hne] at h
              exact absurd h (by simp)
            · rw [if_neg hne] at h
              cases hfind : responseListeners.find? (fun p => p.1 == rid) with
              | none =>
                simp only [hfind] at h
                exact absurd h (by simp)
              | some p =>
                simp only [hfind] at h
                obtain ⟨hp2, hm⟩ := MessageOutcome.delivered.injEq .. ▸ h
                have hp1 : p.1 = rid := by
                  have := List.find?_some hfind
                  simpa using this
                refine ⟨rid, hm ▸ hrid, ?_⟩
                rw [hfind]
                rw [show (rid, tag) = p from Prod.ext hp1.symm hp2.symm]

/-- The msgpack collaborator on the single-byte frame 0xc0: msgpack nil
decodes successfully (no exception) to JavaScript `null`; every other
input of this concrete collaborator fails to decode. -/
def msgpackNilDecode : List Nat → Option DecodedValue :=
  fun messageData => if messageData = [192] then some .nullish else none

/-- Counterexample to C9 as stated: the binary frame consisting of the
msgpack nil byte 0xc0 decodes successfully to `null`, a decoded message
lacking a request identifier — yet it is not silently dropped:
`onMessage` reads `null.requestId` outside any try/catch and throws a
TypeError, so message handling does not return normally and the
connection is not protected from such a message. -/
theorem clientMessage_nil_frame_crashes :
    handleWebSocketMessage msgpackNilDecode [] true [192] = .crashedTypeError := by
  decide

/-- Witness for C9: concrete frames exercising the handled cases — a
non-binary frame, an undecodable binary frame, a nullish decode (which
crashes), a message without a request identifier, and an identifier with
no registered listener. -/
theorem clientMessageHandling_witness :
    handleWebSocketMessage (fun _ => some (.object ⟨some "ab", 0⟩)) [("ab", 7)] false [1]
      = .ignoredNonBinary
    ∧ handleWebSocketMessage (fun _ => none) [("ab", 7)] true [1]
      = .ignoredDecodeFailure
    ∧ handleWebSocketMessage (fun _ => some .nullish) [("ab", 7)] true [1]
      = .crashedTypeError
    ∧ handleWebSocketMessage (fun _ => some (.object ⟨none, 0⟩)) [("ab", 7)] true [1]
      = .droppedMissingRequestId
    ∧ handleWebSocketMessage (fun _ => some (.object ⟨some "cd", 0⟩)) [("ab", 7)] true [1]
      = .droppedNoListener := by
  refine ⟨?_, ?_, ?_, ?_, ?_⟩
  · exact (clientMessageHandling_spec (fun _ => some (.object ⟨some "ab", 0⟩))
      [("ab", 7)] false [1]).1 rfl
  · exact (clientMessageHandling_spec (fun _ => none) [("ab", 7)] true [1]).2.1 rfl rfl
  · exact ((clientMessageHandling_spec (fun _ => some .nullish)
      [("ab", 7)] true [1]).2.2.1 rfl).mpr rfl
  · exact (clientMessageHandling_spec (fun _ => some (.object ⟨none, 0⟩))
      [("ab", 7)] true [1]).2.2.2.1 ⟨none, 0⟩ rfl rfl (Or.inl rfl)
  · exact (clientMessageHandling_spec (fun _ => some (.object ⟨some "cd", 0⟩))
      [("ab", 7)] true [1]).2.2.2.2.1 ⟨some "cd", 0⟩ "cd" rfl rfl rfl
      (by decide) (by decide)

/-!
### ASCII codec (`encodeAscii` / `decodeAscii`)

JavaScript strings are modelled as their sequences of UTF-16 code units;
byte buffers as lists of naturals below 256.
-/

/-- `encodeAscii`: walk the code units left to right, throw on the first
unit at or above 128, otherwise emit the unit as a byte. -/
def encodeAscii : List Nat → Except String (List Nat)
  | [] => .ok []
  | charCode :: rest =>
    if charCode ≥ 128 then
      .error ("Character (code: " ++ toString charCode
        ++ ") can't be encoded as a standard ASCII character")
    else
      match encodeAscii rest with
      | .ok buffer => .ok (charCode :: buffer)
      | .error e => .error e

/-- The 0x80-0x9F rows of the WHATWG windows-1252 decode table (unmapped
bytes decode to themselves). -/
def windows1252HighByte : Nat → Nat
  | 128 => 8364
  | 130 => 8218
  | 131 => 402
  | 132 => 8222
  | 133 => 8230
  | 134 => 8224
  | 135 => 8225
  | 136 => 710
  | 137 => 8240
  | 138 => 352
  | 139 => 8249
  | 140 => 338
  | 142 => 381
  | 145 => 8216
  | 146 => 8217
  | 147 => 8220
  | 148 => 8221
  | 149 => 8226
  | 150 => 8211
  | 151 => 8212
  | 152 => 732
  | 153 => 8482
  | 154 => 353
  | 155 => 8250
  | 156 => 339
  | 158 => 382
  | 159 => 376
  | b => b

/-- One byte of `TextDecoder("windows-1252")` (an external platform
collaborator, modelled by the WHATWG encoding standard): bytes below 0x80
and from 0xA0 up map to themselves, 0x80-0x9F through the table. -/
def windows1252DecodeByte (b : Nat) : Nat :=
  if b < 128 then b else windows1252HighByte b

/-- The chunk size of `decodeAscii`: 2^24 bytes. -/
def maxChunkSize : Nat := 2 ^ 24

/-- `decodeAscii` with its `ChunkedAsciiDecoder`: decode the buffer in
chunks of `maxChunkSize` bytes and concatenate the decoded chunks; the
result is the sequence of code units of the decoded string. -/
def decodeAscii (buffer : List Nat) : List Nat :=
  if h : buffer = [] then []
  else
    (buffer.take maxChunkSize).map windows1252DecodeByte
      ++ decodeAscii (buffer.drop maxChunkSize)
termination_by buffer.length
decreasing_by
  have hpos : 0 < buffer.length := List.length_pos.mpr h
  have hchunk : 0 < maxChunkSize := by norm_num [maxChunkSize]
  simp only [List.length_drop]
  omega

/-- Chunking is transparent for the stateless single-byte decoder: the
chunked decode is the bytewise decode of the whole buffer. -/
theorem decodeAscii_eq_map (l : List Nat) :
    decodeAscii l = l.map windows1252DecodeByte := by
  generalize hn : l.length = n
  induction n using Nat.strong_induction_on generalizing l with
  | _ n ih =>
    rw [decodeAscii]
    split
    · rename_i h
      subst h
      simp
    · rename_i h
      subst hn
      rw [ih (l.drop maxChunkSize).length ?_ _ rfl]
      · rw [← List.map_append, List.take_append_drop]
      · have hpos : 0 < l.length := List.length_pos.mpr h
        have hchunk : 0 < maxChunkSize := by norm_num [maxChunkSize]
        simp only [List.length_drop]
        omega

/-- Encoding a list of small code units succeeds and returns them as
bytes. -/
theorem encodeAscii_ok (codes : List Nat) (h : ∀ c ∈ codes, c < 128) :
    encodeAscii codes = .ok codes := by
  induction codes with
  | nil => rfl
  | cons c rest ih =>
    rw [encodeAscii,
      if_neg (not_le.mpr (h c (List.mem_cons_self c rest))),
      ih (fun x hx => h x (List.mem_cons_of_mem _ hx))]

/-- The encoder throws exactly when some code unit is at or above 128. -/
theorem encodeAscii_error_iff (codes : List Nat) :
    (∃ e, encodeAscii codes = .error e) ↔ ∃ c ∈ codes, 128 ≤ c := by
  induction codes with
  | nil =>
    simp [encodeAscii]
  | cons c rest ih =>
    rw [encodeAscii]
    by_cases hc : c ≥ 128
    · rw [if_pos hc]
      constructor
      · intro _
        exact ⟨c, List.mem_cons_self c rest, hc⟩
      · intro _
        exact ⟨_, rfl⟩
    · rw [if_neg hc]
      cases he : encodeAscii rest with
      | ok buffer =>
        constructor
        · rintro ⟨e, h⟩
          exact absurd h (by simp)
        · rintro ⟨x, hx, hge⟩
          rcases List.mem_cons.mp hx with h1 | h2
          · exact absurd (h1 ▸ hge) hc
          · obtain ⟨e, herr⟩ := ih.mpr ⟨x, h2, hge⟩
            rw [herr] at he
            exact absurd he (by simp)
      | error e2 =>
        constructor
        · intro _
          obtain ⟨x, hx, hge⟩ := ih.mp ⟨e2, he⟩
          exact ⟨x, List.mem_cons_of_mem _ hx, hge⟩
        · intro _
          exact ⟨e2, rfl⟩

/-- C10: for every string whose code units are all below 128, decoding the
encoding returns the original string; and the encoder throws exactly when
some code unit is at or above 128 — there is no other failure mode (the
encoder and decoder are total functions everywhere else). -/
theorem asciiCodec_roundtrip_spec (codes : List Nat) :
    ((∀ c ∈ codes, c < 128) →
      encodeAscii codes = .ok codes ∧ decodeAscii codes = codes)
    ∧ ((∃ e, encodeAscii codes = .error e) ↔ ∃ c ∈ codes, 128 ≤ c) := by
  constructor
  · intro h
    refine ⟨encodeAscii_ok codes h, ?_⟩
    rw [decodeAscii_eq_map]
    have hmap : codes.map windows1252DecodeByte = codes.map (fun c => c) := by
      refine List.map_congr_left ?_
      intro c hc
      rw [windows1252DecodeByte, if_pos (h c hc)]
    rw [hmap, List.map_id']
  · exact encodeAscii_error_iff codes

/-- Witness for C10: the two code units of `"Hi"` (72, 105) are below 128;
the encoder succeeds on them and decoding the resulting bytes restores the
original units. -/
theorem asciiCodec_roundtrip_witness :
    encodeAscii [72, 105] = .ok [72, 105] ∧ decodeAscii [72, 105] = [72, 105] :=
  (asciiCodec_roundtrip_spec [72, 105]).1 (by decide)

end Echogarden
